import Mathlib

/-
Verification of the condition-evaluation core declared in
`cmds/statsd/src/condition/ConditionTracker.h`.

The header defines the abstract class `ConditionTracker`.  Its concrete member
functions (`ConditionTracker::ConditionTracker`, `isConditionMet()`,
`getLogTrackerIndex()`, `setSliced(bool)`) are translated directly from the
source.  The pure-virtual operations (`init`, `evaluateCondition`, the
dimensioned `isConditionMet` overload) have no bodies in the repository slice;
they are modelled from the design document, see the doc comments of the
corresponding definitions.

Embedding conventions:
 - C++ `std::vector` becomes `List`, indexed with `l[i]?`.
 - C++ `std::set<int>` (matcher-index sets) becomes `Finset Nat`.
 - C++ `std::unordered_map<std::string, int>` becomes an association list
   `List (String × Nat)` queried with `List.lookup`.
 - Methods that only read members are paired with an `..M` variant that
   returns the (unchanged) receiver, so that frame properties ("the call does
   not mutate the tracker") are stated as equations on the returned state.
 - Unbounded C++ recursion is embedded with explicit fuel; the drivers supply
   fuel `config.length + 1`, which the theorems show is enough for every
   acyclic configuration.
-/

namespace Statsd

/-- Tri-state condition value (`ConditionState` from `condition_util.h`,
which is outside the repository slice; the design document fixes it to
UNKNOWN / FALSE / TRUE). -/
inductive ConditionState where
  | kUnknown
  | kFalse
  | kTrue
deriving DecidableEq, Repr

/-- Matcher verdict (`MatchingState` from `matcher_util.h`, outside the
slice; the design document fixes it to MATCHED / NOT_MATCHED / UNKNOWN). -/
inductive MatchingState where
  | kMatched
  | kNotMatched
  | kUnknown
deriving DecidableEq, Repr

/-- State of one `ConditionTracker` object: the protected members declared at
lines 99-115 of `ConditionTracker.h`. -/
structure ConditionTracker where
  mName : String
  mIndex : Int
  mInitialized : Bool
  mTrackerIndex : Finset Nat
  mNonSlicedConditionState : ConditionState
  mSliced : Bool
deriving DecidableEq

/-- The constructor `ConditionTracker(const std::string& name, const int index)`
(lines 35-41): stores name and index and gives every other member its
documented initial value. -/
def ConditionTracker.construct (name : String) (index : Int) : ConditionTracker :=
  { mName := name
    mIndex := index
    mInitialized := false
    mTrackerIndex := ∅
    mNonSlicedConditionState := ConditionState.kUnknown
    mSliced := false }

/-- The no-argument `isConditionMet()` (lines 75-77): `return
mNonSlicedConditionState;`. -/
def ConditionTracker.isConditionMet (t : ConditionTracker) : ConditionState :=
  t.mNonSlicedConditionState

/-- Method form of `isConditionMet()`: result paired with the receiver after
the call.  The body contains no assignment, so the receiver is returned
unchanged. -/
def ConditionTracker.isConditionMetM (t : ConditionTracker) :
    ConditionState × ConditionTracker :=
  (t.mNonSlicedConditionState, t)

/-- The accessor `getLogTrackerIndex()` (lines 91-93): `return mTrackerIndex;`. -/
def ConditionTracker.getLogTrackerIndex (t : ConditionTracker) : Finset Nat :=
  t.mTrackerIndex

/-- Method form of `getLogTrackerIndex()` (a `const` member function): result
paired with the unchanged receiver. -/
def ConditionTracker.getLogTrackerIndexM (t : ConditionTracker) :
    Finset Nat × ConditionTracker :=
  (t.mTrackerIndex, t)

/-- The setter `setSliced(bool sliced)` (lines 95-97): `mSliced = mSliced |
sliced;`. -/
def ConditionTracker.setSliced (t : ConditionTracker) (sliced : Bool) :
    ConditionTracker :=
  { t with mSliced := t.mSliced || sliced }

/-- Default tracker used only to satisfy totality of `Option.getD` reads; the
drivers never read out of bounds. -/
def dfltTracker : ConditionTracker := ConditionTracker.construct "" 0

/-- Modelled from the spec: the two concrete node kinds of the `Condition`
config message (`statsd_config.pb.h` is outside the slice).  An atomic node
carries its direct matcher dependencies (already resolved to matcher
indices); a combinational node names the child conditions it depends on. -/
inductive CondKind where
  | atomic (matchers : List Nat)
  | combination (childNames : List String)
deriving DecidableEq, Repr

/-- Modelled from the spec: one condition descriptor from the configuration:
a name plus its kind. -/
structure Condition where
  name : String
  what : CondKind
deriving DecidableEq, Repr

/-- Names of the child conditions a descriptor depends on (empty for atomic
nodes). -/
def childNames (c : Condition) : List String :=
  match c.what with
  | CondKind.atomic _ => []
  | CondKind.combination ns => ns

/-- Lookup in the `conditionNameIndexMap` (the `unordered_map<string,int>`
parameter of `init`). -/
def lookupIdx (cmap : List (String × Nat)) (nm : String) : Option Nat :=
  List.lookup nm cmap

/-- Resolved child indices of node `i`: the names of its child conditions,
resolved through the name→index map (unresolvable names are dropped here;
`init` itself fails on them). -/
def childIdxs (config : List Condition) (cmap : List (String × Nat)) (i : Nat) :
    List Nat :=
  match config[i]? with
  | none => []
  | some c => (childNames c).filterMap (lookupIdx cmap)

/-- Direct matcher dependencies of node `i` as a `Finset` (atomic nodes only). -/
def directs (config : List Condition) (i : Nat) : Finset Nat :=
  match config[i]? with
  | some c =>
    match c.what with
    | CondKind.atomic ms => ms.toFinset
    | CondKind.combination _ => ∅
  | none => ∅

/-- The `mTrackerIndex` set stored at arena slot `j` (`∅` out of bounds). -/
def trackerSet (arena : List ConditionTracker) (j : Nat) : Finset Nat :=
  match arena[j]? with
  | some t => t.mTrackerIndex
  | none => ∅

/-- Union of the `mTrackerIndex` sets of the given arena slots: the
"aggregate their usedMatcherIndices" step of initialization. -/
def unionChildIdx (arena : List ConditionTracker) (idxs : List Nat) : Finset Nat :=
  idxs.foldl (fun s j => s ∪ trackerSet arena j) ∅

/-- Dependency edge of the configuration graph: node `i` depends on node `j`. -/
def edge (config : List Condition) (cmap : List (String × Nat)) (i j : Nat) : Prop :=
  j ∈ childIdxs config cmap i

instance (config : List Condition) (cmap : List (String × Nat)) (i j : Nat) :
    Decidable (edge config cmap i j) :=
  inferInstanceAs (Decidable (j ∈ childIdxs config cmap i))

/-- The configuration's dependency graph contains a cycle (a direct
self-reference or an indirect cycle). -/
def hasCycle (config : List Condition) (cmap : List (String × Nat)) : Prop :=
  ∃ j, Relation.TransGen (edge config cmap) j j

/-- Some cycle is reachable from node `i` along dependency edges. -/
def reachesCycle (config : List Condition) (cmap : List (String × Nat)) (i : Nat) :
    Prop :=
  ∃ j, Relation.ReflTransGen (edge config cmap) i j ∧
    Relation.TransGen (edge config cmap) j j

/-- Every child-condition name appearing in the configuration resolves to an
in-range arena index. -/
def resolvable (config : List Condition) (cmap : List (String × Nat)) : Prop :=
  ∀ (i : Nat) (c : Condition), config[i]? = some c →
    ∀ nm ∈ childNames c, ∃ j, lookupIdx cmap nm = some j ∧ j < config.length

/-- Modelled from the spec: the dependency loop of `init` (the body of `init`
is pure virtual in `ConditionTracker.h`).  For each named dependency: fail if
the name does not resolve; before descending, check the caller-supplied marker
array (`stack`) at the resolved index and fail on a marked slot (cycle);
otherwise recurse via `step` and continue with the updated arena on success. -/
def initChildren
    (step : Nat → List ConditionTracker → List Bool →
      Bool × List ConditionTracker × List Bool)
    (cmap : List (String × Nat)) :
    List String → List ConditionTracker → List Bool →
      Bool × List ConditionTracker × List Bool
  | [], arena, stack => (true, arena, stack)
  | nm :: rest, arena, stack =>
    match lookupIdx cmap nm with
    | none => (false, arena, stack)
    | some j =>
      if (stack[j]?).getD false then (false, arena, stack)
      else
        match step j arena stack with
        | (false, ar, st) => (false, ar, st)
        | (true, ar, st) => initChildren step cmap rest ar st

/-- Modelled from the spec: the recursive (DFS) initialization of one node,
`init` being pure virtual in `ConditionTracker.h` (lines 53-56).  Mark the
node's slot "on path", initialize each dependency (checking the marker before
descending), and only after all dependencies succeed aggregate their
`mTrackerIndex` sets with the node's own direct matcher dependencies, clear
the mark, and set `mInitialized = true`.  Recursion depth is bounded by
`fuel`; exhausted fuel reports failure. -/
def initNode (config : List Condition) (cmap : List (String × Nat)) :
    Nat → Nat → List ConditionTracker → List Bool →
      Bool × List ConditionTracker × List Bool
  | 0, _, arena, stack => (false, arena, stack)
  | fuel + 1, i, arena, stack =>
    match config[i]? with
    | none => (false, arena, stack)
    | some c =>
      let stack1 := stack.set i true
      match initChildren (initNode config cmap fuel) cmap (childNames c) arena stack1 with
      | (false, ar, st) => (false, ar, st)
      | (true, ar, st) =>
        let t := (ar[i]?).getD dfltTracker
        let v := directs config i ∪ unionChildIdx ar (childIdxs config cmap i)
        (true,
         ar.set i { t with mInitialized := true, mTrackerIndex := v },
         st.set i false)

/-- Modelled from the spec: the batch driver of initialization ("initialized
in one batch, fail entire batch on any single failure"): initialize the nodes
in arena order, stopping at the first failure. -/
def initBatch (config : List Condition) (cmap : List (String × Nat)) :
    List Nat → List ConditionTracker → List Bool →
      Bool × List ConditionTracker × List Bool
  | [], arena, stack => (true, arena, stack)
  | i :: rest, arena, stack =>
    match initNode config cmap (config.length + 1) i arena stack with
    | (false, ar, st) => (false, ar, st)
    | (true, ar, st) => initBatch config cmap rest ar st

/-- Arena construction: one freshly constructed tracker per descriptor, with
dense indices in configuration order. -/
def buildArena (config : List Condition) : List ConditionTracker :=
  (List.range config.length).map
    (fun (i : Nat) =>
      ConditionTracker.construct ((config[i]?.map Condition.name).getD "") (Int.ofNat i))

/-- Modelled from the spec: whole-configuration initialization: fresh arena,
all-false marker array, batch init over every index. -/
def initConditions (config : List Condition) (cmap : List (String × Nat)) :
    Bool × List ConditionTracker × List Bool :=
  initBatch config cmap (List.range config.length) (buildArena config)
    (List.replicate config.length false)

/-- Modelled from the spec: configuration load: on any initialization failure
the caller discards the entire arena ("no partial-success mode"), so a failed
configuration never becomes available for evaluation. -/
def loadConfig (config : List Condition) (cmap : List (String × Nat)) :
    Option (List ConditionTracker) :=
  match initConditions config cmap with
  | (true, arena, _) => some arena
  | (false, _, _) => none

/-- Per-event evaluation state: the arena, the carried-forward state cache
(`conditionCache`) and the change bitmap (`conditionChanged`). -/
abbrev EvalState := List ConditionTracker × List ConditionState × List Bool

/-- Modelled from the spec: the new aggregate state of node `i` computed
during a pass.  An atomic node recomputes from the matcher verdicts and its
own prior state via the external rule `arule`; a combinational node from its
children's cache slots via the external rule `crule` ("deterministic function
of already-computed dependency states"). -/
def nodeNewValue (arule : Nat → List MatchingState → ConditionState → ConditionState)
    (crule : Nat → List ConditionState → ConditionState)
    (config : List Condition) (cmap : List (String × Nat))
    (verdicts : List MatchingState) (cache : List ConditionState) (i : Nat) :
    ConditionState :=
  match config[i]? with
  | none => (cache[i]?).getD ConditionState.kUnknown
  | some c =>
    match c.what with
    | CondKind.atomic _ => arule i verdicts ((cache[i]?).getD ConditionState.kUnknown)
    | CondKind.combination _ =>
      crule i ((childIdxs config cmap i).map
        (fun j => (cache[j]?).getD ConditionState.kUnknown))

/-- Modelled from the spec: the update of one node during an evaluation pass
(`evaluateCondition` is pure virtual in `ConditionTracker.h`, lines 68-72).
The new value is written to the node's cache slot and to
`mNonSlicedConditionState`.  Per the header comment (lines 65-67),
`conditionChanged` records whether the condition changed, and for a condition
with dimensions (`mSliced`) any sub-condition change also reports
`conditionChanged`. -/
def evalStep (arule : Nat → List MatchingState → ConditionState → ConditionState)
    (crule : Nat → List ConditionState → ConditionState)
    (config : List Condition) (cmap : List (String × Nat))
    (verdicts : List MatchingState) (i : Nat) (st : EvalState) : EvalState :=
  match st with
  | (arena, cache, changed) =>
    match config[i]? with
    | none => (arena, cache, changed)
    | some _ =>
      let old := (cache[i]?).getD ConditionState.kUnknown
      let nw := nodeNewValue arule crule config cmap verdicts cache i
      let isSliced := ((arena[i]?).map ConditionTracker.mSliced).getD false
      let subChanged := (childIdxs config cmap i).any (fun j => (changed[j]?).getD false)
      let t := (arena[i]?).getD dfltTracker
      (arena.set i { t with mNonSlicedConditionState := nw },
       cache.set i nw,
       changed.set i (decide (nw ≠ old) || (isSliced && subChanged)))

/-- Modelled from the spec: drive `evalStep` over `k` consecutive node
indices starting at `s` ("driving the pass strictly in index order"). -/
def evalLoopN (arule : Nat → List MatchingState → ConditionState → ConditionState)
    (crule : Nat → List ConditionState → ConditionState)
    (config : List Condition) (cmap : List (String × Nat))
    (verdicts : List MatchingState) : Nat → Nat → EvalState → EvalState
  | _, 0, st => st
  | s, k + 1, st =>
    evalLoopN arule crule config cmap verdicts (s + 1) k
      (evalStep arule crule config cmap verdicts s st)

/-- Modelled from the spec: one full evaluation pass over the arena for one
event: every node, in index order. -/
def evaluatePass (arule : Nat → List MatchingState → ConditionState → ConditionState)
    (crule : Nat → List ConditionState → ConditionState)
    (config : List Condition) (cmap : List (String × Nat))
    (verdicts : List MatchingState) (st : EvalState) : EvalState :=
  evalLoopN arule crule config cmap verdicts 0 config.length st

/-- Modelled from the spec: replay of a sequence of matcher-verdict vectors:
one pass per event, a fresh all-false change bitmap per event, arena and state
cache carried forward; returns the sequence of (state cache, change bitmap)
snapshots. -/
def evalRun (arule : Nat → List MatchingState → ConditionState → ConditionState)
    (crule : Nat → List ConditionState → ConditionState)
    (config : List Condition) (cmap : List (String × Nat)) :
    List (List MatchingState) → List ConditionTracker × List ConditionState →
      List (List ConditionState × List Bool)
  | [], _ => []
  | v :: vs, (arena, cache) =>
    match evaluatePass arule crule config cmap v
      (arena, cache, List.replicate config.length false) with
    | (arena', cache', changed') =>
      (cache', changed') :: evalRun arule crule config cmap vs (arena', cache')

/-- Dimension key: a structural, hashable identifier for one slice
(`HashableDimensionKey` is outside the slice; equality is structural). -/
abbrev HashableDimensionKey := String

/-- The `conditionParameters` map from condition name to dimension key. -/
abbrev DimParams := List (String × HashableDimensionKey)

/-- Modelled from the spec: the value computed by the dimensioned query for
node `i` (the dimensioned `isConditionMet` overload is pure virtual in
`ConditionTracker.h`, lines 85-88).  Atomic nodes answer through the external
per-slice rule `adRule`; combinational nodes recursively query their children
and combine through the external rule `cdRule`.  The value is a deterministic
function of the parameters and the configuration only. -/
def dimValue (adRule : Nat → DimParams → ConditionState)
    (cdRule : Nat → List ConditionState → ConditionState)
    (config : List Condition) (cmap : List (String × Nat)) (params : DimParams) :
    Nat → Nat → ConditionState
  | 0, _ => ConditionState.kUnknown
  | fuel + 1, i =>
    match config[i]? with
    | none => ConditionState.kUnknown
    | some c =>
      match c.what with
      | CondKind.atomic _ => adRule i params
      | CondKind.combination _ =>
        cdRule i ((childIdxs config cmap i).map
          (dimValue adRule cdRule config cmap params fuel))

/-- Modelled from the spec: the dimensioned query
`isConditionMet(conditionParameters, allConditions, conditionCache)`.  It
writes the queried node's value into the condition cache and is read-only
with respect to the trackers (in particular `mNonSlicedConditionState`); the
memoization of sub-condition slots is a performance detail that does not
affect the returned value. -/
def isConditionMetDim (adRule : Nat → DimParams → ConditionState)
    (cdRule : Nat → List ConditionState → ConditionState)
    (config : List Condition) (cmap : List (String × Nat)) (params : DimParams)
    (i : Nat) (arena : List ConditionTracker) (cache : List ConditionState) :
    List ConditionTracker × List ConditionState :=
  (arena, cache.set i (dimValue adRule cdRule config cmap params (config.length + 1) i))

/-! Helper lemmas shared by several claim theorems. -/

/-- Folding `setSliced` over any further calls keeps an already-true flag true. -/
lemma setSliced_foldl_true (bs : List Bool) :
    ∀ t : ConditionTracker, t.mSliced = true →
      (bs.foldl ConditionTracker.setSliced t).mSliced = true := by
  induction bs with
  | nil => intro t h; exact h
  | cons b rest ih =>
    intro t h
    exact ih _ (by simp [ConditionTracker.setSliced, h])

/-! Claim theorems for the concrete member functions. -/

/-- C4: `setSliced(b)` ORs `b` onto the existing flag, and across any sequence
of further `setSliced` calls the flag is monotonic: once true it never
becomes false. -/
theorem C4_setSliced_monotone_or :
    ∀ (t : ConditionTracker) (b : Bool) (bs : List Bool),
      ((t.setSliced b).mSliced = (t.mSliced || b)) ∧
      (t.mSliced = true → (bs.foldl ConditionTracker.setSliced t).mSliced = true) := by
  intro t b bs
  exact ⟨rfl, setSliced_foldl_true bs t⟩

/-- Witness for C4 at a concrete tracker whose flag has been observed true. -/
theorem C4_setSliced_monotone_or_witness :
    (((ConditionTracker.construct "c" 0).setSliced true).mSliced = true) ∧
      (([false, true, false].foldl ConditionTracker.setSliced
        ((ConditionTracker.construct "c" 0).setSliced true)).mSliced = true) :=
  ⟨by decide,
   (C4_setSliced_monotone_or ((ConditionTracker.construct "c" 0).setSliced true)
     false [false, true, false]).2 (by decide)⟩

/-- C7: the no-argument `isConditionMet()` returns exactly
`mNonSlicedConditionState`, leaves the tracker unchanged, and two successive
calls return the same value. -/
theorem C7_isConditionMet_pure_read :
    ∀ t : ConditionTracker,
      (t.isConditionMetM).1 = t.mNonSlicedConditionState ∧
      (t.isConditionMetM).2 = t ∧
      (((t.isConditionMetM).2.isConditionMetM).1 = (t.isConditionMetM).1) :=
  fun _ => ⟨rfl, rfl, rfl⟩

/-- C8: a freshly constructed `ConditionTracker` stores the given name and
index and starts with `mNonSlicedConditionState = kUnknown`,
`mInitialized = false`, `mSliced = false` and an empty `mTrackerIndex`; hence
`isConditionMet()` returns UNKNOWN before any event is evaluated. -/
theorem C8_constructor_initial_state :
    ∀ (name : String) (index : Int),
      (ConditionTracker.construct name index).mName = name ∧
      (ConditionTracker.construct name index).mIndex = index ∧
      (ConditionTracker.construct name index).mInitialized = false ∧
      (ConditionTracker.construct name index).mTrackerIndex = ∅ ∧
      (ConditionTracker.construct name index).mNonSlicedConditionState =
        ConditionState.kUnknown ∧
      (ConditionTracker.construct name index).mSliced = false ∧
      (ConditionTracker.construct name index).isConditionMet = ConditionState.kUnknown :=
  fun _ _ => ⟨rfl, rfl, rfl, rfl, rfl, rfl, rfl⟩

/-- C10: `getLogTrackerIndex()` is total (defined on every tracker, also one
never initialized), returns the empty set on a freshly constructed tracker,
and leaves the tracker unchanged. -/
theorem C10_getLogTrackerIndex_total_empty :
    ∀ (t : ConditionTracker) (name : String) (index : Int),
      t.getLogTrackerIndexM = (t.mTrackerIndex, t) ∧
      (ConditionTracker.construct name index).getLogTrackerIndex = ∅ ∧
      ((ConditionTracker.construct name index).getLogTrackerIndexM).2.mInitialized
        = false :=
  fun _ _ _ => ⟨rfl, rfl, rfl⟩

/-! Cycle detection: a configuration with a reachable cycle can never pass
initialization. -/

/-- From a node that reaches a cycle, some dependency edge leads to a node
that still reaches a cycle. -/
lemma reachesCycle_step {config : List Condition} {cmap : List (String × Nat)}
    {i : Nat} (h : reachesCycle config cmap i) :
    ∃ x, edge config cmap i x ∧ reachesCycle config cmap x := by
  obtain ⟨j, hij, hjj⟩ := h
  rcases Relation.ReflTransGen.cases_head hij with heq | ⟨c, hic, hcj⟩
  · subst heq
    obtain ⟨b, hib, hbj⟩ := Relation.TransGen.head'_iff.mp hjj
    exact ⟨b, hib, i, hbj, hjj⟩
  · exact ⟨c, hic, ⟨j, hcj, hjj⟩⟩

/-- If some name in the list resolves to a node on which `step` always fails,
the dependency loop fails. -/
lemma initChildren_false_of_bad
    (step : Nat → List ConditionTracker → List Bool →
      Bool × List ConditionTracker × List Bool)
    (cmap : List (String × Nat)) (bad : Nat → Prop)
    (hstep : ∀ x, bad x → ∀ ar st, (step x ar st).1 = false) :
    ∀ (names : List String) (arena : List ConditionTracker) (stack : List Bool),
      (∃ nm ∈ names, ∃ x, lookupIdx cmap nm = some x ∧ bad x) →
      (initChildren step cmap names arena stack).1 = false := by
  intro names
  induction names with
  | nil =>
    intro arena stack h
    obtain ⟨nm, hnm, _⟩ := h
    cases hnm
  | cons nm0 rest ih =>
    intro arena stack h
    simp only [initChildren]
    cases hl : lookupIdx cmap nm0 with
    | none => rfl
    | some j =>
      cases hm : (stack[j]?).getD false with
      | true => simp [hm]
      | false =>
        simp only [hm, Bool.false_eq_true, if_false]
        rcases hs : step j arena stack with ⟨b, ar, st⟩
        cases b with
        | false => simp
        | true =>
          simp only []
          obtain ⟨nm, hnm, x, hx, hbad⟩ := h
          rcases List.mem_cons.mp hnm with rfl | hmem
          · rw [hl] at hx
            obtain rfl : j = x := Option.some.inj hx
            have hf := hstep j hbad arena stack
            rw [hs] at hf
            simp at hf
          · exact ih ar st ⟨nm, hmem, x, hx, hbad⟩

/-- A node from which a cycle is reachable never initializes successfully,
whatever the fuel, the arena and the marker array. -/
lemma initNode_false_of_reachesCycle (config : List Condition)
    (cmap : List (String × Nat)) :
    ∀ (fuel i : Nat) (arena : List ConditionTracker) (stack : List Bool),
      reachesCycle config cmap i →
      (initNode config cmap fuel i arena stack).1 = false := by
  intro fuel
  induction fuel with
  | zero => intro i arena stack _; rfl
  | succ fuel ih =>
    intro i arena stack h
    obtain ⟨x, hix, hx⟩ := reachesCycle_step h
    simp only [initNode]
    split
    · rfl
    · rename_i c hc
      split
      · rfl
      · rename_i ar st hr
        exfalso
        have hbad : (initChildren (initNode config cmap fuel) cmap (childNames c)
            arena (stack.set i true)).1 = false := by
          apply initChildren_false_of_bad _ _ (reachesCycle config cmap)
          · intro y hy ar' st'
            exact ih y ar' st' hy
          · have hmem : x ∈ childIdxs config cmap i := hix
            unfold childIdxs at hmem
            rw [hc] at hmem
            obtain ⟨nm, hnm, hl⟩ := List.mem_filterMap.mp hmem
            exact ⟨nm, hnm, x, hl, hx⟩
        rw [hr] at hbad
        simp at hbad

/-- If the batch contains an index on which node initialization always
fails, the whole batch fails. -/
lemma initBatch_false_of_mem (config : List Condition) (cmap : List (String × Nat)) :
    ∀ (idxs : List Nat) (arena : List ConditionTracker) (stack : List Bool) (i : Nat),
      i ∈ idxs →
      (∀ ar st, (initNode config cmap (config.length + 1) i ar st).1 = false) →
      (initBatch config cmap idxs arena stack).1 = false := by
  intro idxs
  induction idxs with
  | nil =>
    intro arena stack i hmem _
    cases hmem
  | cons i0 rest ih =>
    intro arena stack i hmem hfail
    simp only [initBatch]
    rcases hs : initNode config cmap (config.length + 1) i0 arena stack with ⟨b, ar, st⟩
    cases b with
    | false => simp
    | true =>
      simp only []
      rcases List.mem_cons.mp hmem with rfl | hmem'
      · have hthis := hfail arena stack
        rw [hs] at hthis
        simp at hthis
      · exact ih ar st i hmem' hfail

/-- A cyclic configuration has a node below the arena size from which a cycle
is reachable. -/
lemma hasCycle_elim {config : List Condition} {cmap : List (String × Nat)}
    (h : hasCycle config cmap) :
    ∃ j, j < config.length ∧ reachesCycle config cmap j := by
  obtain ⟨j, hj⟩ := h
  refine ⟨j, ?_, ⟨j, Relation.ReflTransGen.refl, hj⟩⟩
  obtain ⟨b, hjb, _⟩ := Relation.TransGen.head'_iff.mp hj
  have hmem : b ∈ childIdxs config cmap j := hjb
  unfold childIdxs at hmem
  cases hc : config[j]? with
  | none =>
    rw [hc] at hmem
    cases hmem
  | some c => exact (List.getElem?_eq_some.mp hc).1

/-- Concrete configuration used as counterexample and witness for C1: node 0
is an atomic condition, node 1 depends on itself. -/
def cfgC1 : List Condition :=
  [⟨"n0", CondKind.atomic [3]⟩, ⟨"n1", CondKind.combination ["n1"]⟩]

/-- Name→index map for `cfgC1`. -/
def cmapC1 : List (String × Nat) := [("n0", 0), ("n1", 1)]

/-- C1, counterexample to the claim as stated: the configuration `cfgC1`
contains a cycle and its initialization fails, yet node 0 — validated before
the cycle is hit — ends with `mInitialized = true`; so it is false that no
node in the arena ends initialized. -/
theorem C1_counterexample :
    hasCycle cfgC1 cmapC1 ∧
    (initConditions cfgC1 cmapC1).1 = false ∧
    ∃ t, ((initConditions cfgC1 cmapC1).2.1)[0]? = some t ∧ t.mInitialized = true :=
  ⟨⟨1, Relation.TransGen.single (by decide)⟩, by decide, by decide⟩

/-- C1, amended: for every configuration whose dependency graph contains a
cycle, `init` fails (the batch returns false), the configuration is never
loaded, and hence no evaluation pass is ever run against it.  (Nodes fully
validated before the failure may keep `mInitialized = true` inside the
discarded arena, see `C1_counterexample`.) -/
theorem C1_cycle_init_fails :
    ∀ (config : List Condition) (cmap : List (String × Nat)),
      hasCycle config cmap →
      (initConditions config cmap).1 = false ∧
      loadConfig config cmap = none ∧
      (∀ (arule : Nat → List MatchingState → ConditionState → ConditionState)
         (crule : Nat → List ConditionState → ConditionState)
         (events : List (List MatchingState)),
        (loadConfig config cmap).map
          (fun arena => evalRun arule crule config cmap events
            (arena, List.replicate config.length ConditionState.kUnknown)) = none) := by
  intro config cmap h
  obtain ⟨j, hjlt, hrc⟩ := hasCycle_elim h
  have hfail : (initConditions config cmap).1 = false := by
    unfold initConditions
    exact initBatch_false_of_mem config cmap _ _ _ j (List.mem_range.mpr hjlt)
      (fun ar st => initNode_false_of_reachesCycle config cmap _ j ar st hrc)
  have hnone : loadConfig config cmap = none := by
    unfold loadConfig
    rcases hi : initConditions config cmap with ⟨b, ar, st⟩
    rw [hi] at hfail
    simp only at hfail
    subst hfail
    rfl
  exact ⟨hfail, hnone, fun arule crule events => by rw [hnone]; rfl⟩

/-- Witness for C1 (amended) at the concrete cyclic configuration `cfgC1`. -/
theorem C1_cycle_init_fails_witness :
    hasCycle cfgC1 cmapC1 ∧ (initConditions cfgC1 cmapC1).1 = false ∧
      loadConfig cfgC1 cmapC1 = none := by
  have hcyc : hasCycle cfgC1 cmapC1 := ⟨1, Relation.TransGen.single (by decide)⟩
  exact ⟨hcyc, (C1_cycle_init_fails cfgC1 cmapC1 hcyc).1,
    (C1_cycle_init_fails cfgC1 cmapC1 hcyc).2.1⟩

/-! Evaluator lemmas: frame properties of one evaluation step and of the
index loop, and the change-flag characterization. -/

/-- One-step unfolding of `evalStep` at an in-range node. -/
lemma evalStep_eq (arule : Nat → List MatchingState → ConditionState → ConditionState)
    (crule : Nat → List ConditionState → ConditionState)
    (config : List Condition) (cmap : List (String × Nat))
    (verdicts : List MatchingState) {i : Nat} {c : Condition}
    (hc : config[i]? = some c) (arena : List ConditionTracker)
    (cache : List ConditionState) (changed : List Bool) :
    evalStep arule crule config cmap verdicts i (arena, cache, changed) =
      (arena.set i { (arena[i]?).getD dfltTracker with
          mNonSlicedConditionState := nodeNewValue arule crule config cmap verdicts cache i },
       cache.set i (nodeNewValue arule crule config cmap verdicts cache i),
       changed.set i
         (decide (nodeNewValue arule crule config cmap verdicts cache i ≠
            (cache[i]?).getD ConditionState.kUnknown) ||
          (((arena[i]?).map ConditionTracker.mSliced).getD false &&
           (childIdxs config cmap i).any (fun j => (changed[j]?).getD false)))) := by
  simp [evalStep, hc]

/-- A step on node `i` does not touch cache or change slots other than `i`. -/
lemma evalStep_frame_ne (arule : Nat → List MatchingState → ConditionState → ConditionState)
    (crule : Nat → List ConditionState → ConditionState)
    (config : List Condition) (cmap : List (String × Nat))
    (verdicts : List MatchingState) (i : Nat) (st : EvalState) (j : Nat) (hj : j ≠ i) :
    ((evalStep arule crule config cmap verdicts i st).2.1)[j]? = (st.2.1)[j]? ∧
    ((evalStep arule crule config cmap verdicts i st).2.2)[j]? = (st.2.2)[j]? := by
  rcases st with ⟨arena, cache, changed⟩
  cases hc : config[i]? with
  | none => simp [evalStep, hc]
  | some c =>
    rw [evalStep_eq arule crule config cmap verdicts hc]
    exact ⟨List.getElem?_set_ne (Ne.symm hj), List.getElem?_set_ne (Ne.symm hj)⟩

/-- A step preserves every tracker's `mSliced` flag. -/
lemma evalStep_sliced (arule : Nat → List MatchingState → ConditionState → ConditionState)
    (crule : Nat → List ConditionState → ConditionState)
    (config : List Condition) (cmap : List (String × Nat))
    (verdicts : List MatchingState) (i : Nat) (st : EvalState) (j : Nat) :
    (((evalStep arule crule config cmap verdicts i st).1)[j]?).map ConditionTracker.mSliced =
      ((st.1)[j]?).map ConditionTracker.mSliced := by
  rcases st with ⟨arena, cache, changed⟩
  cases hc : config[i]? with
  | none => simp [evalStep, hc]
  | some c =>
    rw [evalStep_eq arule crule config cmap verdicts hc]
    by_cases hji : j = i
    · subst hji
      by_cases hlt : j < arena.length
      · rw [List.getElem?_set_self hlt, List.getElem?_eq_getElem hlt]
        simp
      · rw [List.set_eq_of_length_le (Nat.le_of_not_lt hlt)]
    · rw [List.getElem?_set_ne (Ne.symm hji)]

/-- A step preserves the lengths of all three state components. -/
lemma evalStep_len (arule : Nat → List MatchingState → ConditionState → ConditionState)
    (crule : Nat → List ConditionState → ConditionState)
    (config : List Condition) (cmap : List (String × Nat))
    (verdicts : List MatchingState) (i : Nat) (st : EvalState) :
    ((evalStep arule crule config cmap verdicts i st).1).length = (st.1).length ∧
    ((evalStep arule crule config cmap verdicts i st).2.1).length = (st.2.1).length ∧
    ((evalStep arule crule config cmap verdicts i st).2.2).length = (st.2.2).length := by
  rcases st with ⟨arena, cache, changed⟩
  cases hc : config[i]? with
  | none => simp [evalStep, hc]
  | some c =>
    rw [evalStep_eq arule crule config cmap verdicts hc]
    exact ⟨List.length_set arena i _, List.length_set cache i _, List.length_set changed i _⟩

/-- Splitting the index loop. -/
lemma evalLoopN_add (arule : Nat → List MatchingState → ConditionState → ConditionState)
    (crule : Nat → List ConditionState → ConditionState)
    (config : List Condition) (cmap : List (String × Nat))
    (verdicts : List MatchingState) :
    ∀ (a s b : Nat) (st : EvalState),
      evalLoopN arule crule config cmap verdicts s (a + b) st =
        evalLoopN arule crule config cmap verdicts (s + a) b
          (evalLoopN arule crule config cmap verdicts s a st) := by
  intro a
  induction a with
  | zero => intro s b st; simp [evalLoopN]
  | succ a ih =>
    intro s b st
    have h1 : a + 1 + b = (a + b) + 1 := by omega
    rw [h1]
    simp only [evalLoopN]
    rw [ih (s + 1) b (evalStep arule crule config cmap verdicts s st)]
    have h2 : s + 1 + a = s + (a + 1) := by omega
    rw [h2]

/-- The loop over indices `[s, s+k)` leaves cache and change slots outside
that range untouched. -/
lemma evalLoopN_frame (arule : Nat → List MatchingState → ConditionState → ConditionState)
    (crule : Nat → List ConditionState → ConditionState)
    (config : List Condition) (cmap : List (String × Nat))
    (verdicts : List MatchingState) :
    ∀ (k s : Nat) (st : EvalState) (j : Nat), (j < s ∨ s + k ≤ j) →
      ((evalLoopN arule crule config cmap verdicts s k st).2.1)[j]? = (st.2.1)[j]? ∧
      ((evalLoopN arule crule config cmap verdicts s k st).2.2)[j]? = (st.2.2)[j]? := by
  intro k
  induction k with
  | zero => intro s st j _; exact ⟨rfl, rfl⟩
  | succ k ih =>
    intro s st j h
    simp only [evalLoopN]
    have hj : j ≠ s := by omega
    have h' : j < s + 1 ∨ (s + 1) + k ≤ j := by omega
    obtain ⟨h1, h2⟩ := ih (s + 1) (evalStep arule crule config cmap verdicts s st) j h'
    obtain ⟨g1, g2⟩ := evalStep_frame_ne arule crule config cmap verdicts s st j hj
    exact ⟨h1.trans g1, h2.trans g2⟩

/-- The loop preserves every tracker's `mSliced` flag. -/
lemma evalLoopN_sliced (arule : Nat → List MatchingState → ConditionState → ConditionState)
    (crule : Nat → List ConditionState → ConditionState)
    (config : List Condition) (cmap : List (String × Nat))
    (verdicts : List MatchingState) :
    ∀ (k s : Nat) (st : EvalState) (j : Nat),
      (((evalLoopN arule crule config cmap verdicts s k st).1)[j]?).map
          ConditionTracker.mSliced =
        ((st.1)[j]?).map ConditionTracker.mSliced := by
  intro k
  induction k with
  | zero => intro s st j; rfl
  | succ k ih =>
    intro s st j
    simp only [evalLoopN]
    exact (ih (s + 1) (evalStep arule crule config cmap verdicts s st) j).trans
      (evalStep_sliced arule crule config cmap verdicts s st j)

/-- The loop preserves the lengths of all three state components. -/
lemma evalLoopN_len (arule : Nat → List MatchingState → ConditionState → ConditionState)
    (crule : Nat → List ConditionState → ConditionState)
    (config : List Condition) (cmap : List (String × Nat))
    (verdicts : List MatchingState) :
    ∀ (k s : Nat) (st : EvalState),
      ((evalLoopN arule crule config cmap verdicts s k st).1).length = (st.1).length ∧
      ((evalLoopN arule crule config cmap verdicts s k st).2.1).length = (st.2.1).length ∧
      ((evalLoopN arule crule config cmap verdicts s k st).2.2).length = (st.2.2).length := by
  intro k
  induction k with
  | zero => intro s st; exact ⟨rfl, rfl, rfl⟩
  | succ k ih =>
    intro s st
    simp only [evalLoopN]
    obtain ⟨h1, h2, h3⟩ := ih (s + 1) (evalStep arule crule config cmap verdicts s st)
    obtain ⟨g1, g2, g3⟩ := evalStep_len arule crule config cmap verdicts s st
    exact ⟨h1.trans g1, h2.trans g2, h3.trans g3⟩

/-- C2, amended: after a pass, for a node `i` whose dependencies precede it
in index order, `conditionChanged[i]` is true iff the node's cache value
differs from its value before the pass, or the node is sliced and some
sub-condition's change flag is set (the dimension caveat documented at lines
65-67 of `ConditionTracker.h`). -/
theorem C2_changed_iff :
    ∀ (arule : Nat → List MatchingState → ConditionState → ConditionState)
      (crule : Nat → List ConditionState → ConditionState)
      (config : List Condition) (cmap : List (String × Nat))
      (verdicts : List MatchingState) (arena : List ConditionTracker)
      (cache : List ConditionState) (changed : List Bool) (i : Nat),
      (∀ j ∈ childIdxs config cmap i, j < i) →
      cache.length = config.length →
      changed.length = config.length →
      i < config.length →
      (((evaluatePass arule crule config cmap verdicts (arena, cache, changed)).2.2)[i]?
          = some true ↔
        ((evaluatePass arule crule config cmap verdicts (arena, cache, changed)).2.1)[i]?
            ≠ cache[i]? ∨
        (((arena[i]?).map ConditionTracker.mSliced).getD false = true ∧
         ∃ j ∈ childIdxs config cmap i,
           ((evaluatePass arule crule config cmap verdicts (arena, cache, changed)).2.2)[j]?
             = some true)) := by
  intro arule crule config cmap verdicts arena cache changed i htopo hclen hchlen hi
  have hc : config[i]? = some config[i] := List.getElem?_eq_getElem hi
  rcases hA : evalLoopN arule crule config cmap verdicts 0 i (arena, cache, changed)
    with ⟨arA, caA, chA⟩
  have hlen3 := evalLoopN_len arule crule config cmap verdicts i 0 (arena, cache, changed)
  rw [hA] at hlen3
  have hcaAlen : caA.length = config.length := by
    have := hlen3.2.1
    simp only at this
    omega
  have hchAlen : chA.length = config.length := by
    have := hlen3.2.2
    simp only at this
    omega
  have hfrA := evalLoopN_frame arule crule config cmap verdicts i 0 (arena, cache, changed)
    i (Or.inr (by omega))
  rw [hA] at hfrA
  have hslA := evalLoopN_sliced arule crule config cmap verdicts i 0 (arena, cache, changed) i
  rw [hA] at hslA
  have hstep := evalStep_eq arule crule config cmap verdicts hc arA caA chA
  have hBcache : (evalStep arule crule config cmap verdicts i (arA, caA, chA)).2.1 =
      caA.set i (nodeNewValue arule crule config cmap verdicts caA i) := by
    rw [hstep]
  have hBchanged : (evalStep arule crule config cmap verdicts i (arA, caA, chA)).2.2 =
      chA.set i
        (decide (nodeNewValue arule crule config cmap verdicts caA i ≠
           (caA[i]?).getD ConditionState.kUnknown) ||
         (((arA[i]?).map ConditionTracker.mSliced).getD false &&
          (childIdxs config cmap i).any (fun j => (chA[j]?).getD false))) := by
    rw [hstep]
  have hdecomp : evaluatePass arule crule config cmap verdicts (arena, cache, changed) =
      evalLoopN arule crule config cmap verdicts (i + 1) (config.length - i - 1)
        (evalStep arule crule config cmap verdicts i (arA, caA, chA)) := by
    unfold evaluatePass
    conv_lhs => rw [show config.length = i + ((config.length - i - 1) + 1) from by omega]
    rw [evalLoopN_add]
    simp only [Nat.zero_add]
    rw [hA]
    simp only [evalLoopN]
  have hfinf := evalLoopN_frame arule crule config cmap verdicts (config.length - i - 1)
    (i + 1) (evalStep arule crule config cmap verdicts i (arA, caA, chA)) i
    (Or.inl (by omega))
  have h1 : ((evalLoopN arule crule config cmap verdicts (i + 1) (config.length - i - 1)
      (evalStep arule crule config cmap verdicts i (arA, caA, chA))).2.2)[i]? =
      some (decide (nodeNewValue arule crule config cmap verdicts caA i ≠
          (caA[i]?).getD ConditionState.kUnknown) ||
        (((arA[i]?).map ConditionTracker.mSliced).getD false &&
         (childIdxs config cmap i).any (fun j => (chA[j]?).getD false))) := by
    rw [hfinf.2, hBchanged, List.getElem?_set_self (by omega : i < chA.length)]
  have h2 : ((evalLoopN arule crule config cmap verdicts (i + 1) (config.length - i - 1)
      (evalStep arule crule config cmap verdicts i (arA, caA, chA))).2.1)[i]? =
      some (nodeNewValue arule crule config cmap verdicts caA i) := by
    rw [hfinf.1, hBcache, List.getElem?_set_self (by omega : i < caA.length)]
  have h3 : ∀ j ∈ childIdxs config cmap i,
      ((evalLoopN arule crule config cmap verdicts (i + 1) (config.length - i - 1)
        (evalStep arule crule config cmap verdicts i (arA, caA, chA))).2.2)[j]? = chA[j]? := by
    intro j hj
    have hji : j < i := htopo j hj
    have hfr2 := evalLoopN_frame arule crule config cmap verdicts (config.length - i - 1)
      (i + 1) (evalStep arule crule config cmap verdicts i (arA, caA, chA)) j
      (Or.inl (by omega))
    rw [hfr2.2, hBchanged, List.getElem?_set_ne (by omega : i ≠ j)]
  rw [hdecomp, h1, h2]
  have h5 : (∃ j ∈ childIdxs config cmap i,
      ((evalLoopN arule crule config cmap verdicts (i + 1) (config.length - i - 1)
        (evalStep arule crule config cmap verdicts i (arA, caA, chA))).2.2)[j]?
          = some true) ↔
      ((childIdxs config cmap i).any (fun j => (chA[j]?).getD false) = true) := by
    rw [List.any_eq_true]
    refine exists_congr fun j => ?_
    constructor
    · rintro ⟨hj, hP⟩
      refine ⟨hj, ?_⟩
      rw [h3 j hj] at hP
      rw [hP]
      rfl
    · rintro ⟨hj, hP⟩
      refine ⟨hj, ?_⟩
      rw [h3 j hj]
      have hjlt : j < chA.length := by
        have := htopo j hj
        omega
      rw [List.getElem?_eq_getElem hjlt] at hP ⊢
      simpa using hP
  rw [h5]
  rw [hfrA.1] at *
  rw [hslA]
  rw [List.getElem?_eq_getElem (show i < cache.length by omega)]
  simp [Option.some.injEq, Bool.or_eq_true, Bool.and_eq_true, decide_eq_true_iff]

/-- Acyclic two-node configuration: node 1 depends on node 0. -/
def cfgA : List Condition :=
  [⟨"a", CondKind.atomic [2, 5]⟩, ⟨"b", CondKind.combination ["a"]⟩]

/-- Name→index map for `cfgA`. -/
def cmapA : List (String × Nat) := [("a", 0), ("b", 1)]

/-- Atomic rule used in concrete evaluation scenarios: the condition becomes
TRUE on any event. -/
def aruleX : Nat → List MatchingState → ConditionState → ConditionState :=
  fun _ _ _ => ConditionState.kTrue

/-- Combinational rule used in concrete evaluation scenarios: the aggregate
stays UNKNOWN whatever the children do. -/
def cruleX : Nat → List ConditionState → ConditionState :=
  fun _ _ => ConditionState.kUnknown

/-- Arena of `cfgA` with node 1 marked sliced through `setSliced`. -/
def arenaS : List ConditionTracker :=
  (buildArena cfgA).set 1 ((((buildArena cfgA)[1]?).getD dfltTracker).setSliced true)

/-- C2, counterexample to the claim as stated: in a pass over `cfgA` with
node 1 sliced, node 0 changes (UNKNOWN to TRUE) while the combinational rule
keeps node 1's value UNKNOWN; the pass still sets `conditionChanged[1]`
although node 1's cache slot is exactly what it was before the pass, so
"changed[i] iff stateCache[i] differs" fails at node 1. -/
theorem C2_counterexample :
    (∀ j ∈ childIdxs cfgA cmapA 1, j < 1) ∧
    ((evaluatePass aruleX cruleX cfgA cmapA []
        (arenaS, [ConditionState.kUnknown, ConditionState.kUnknown],
          [false, false])).2.2)[1]? = some true ∧
    ((evaluatePass aruleX cruleX cfgA cmapA []
        (arenaS, [ConditionState.kUnknown, ConditionState.kUnknown],
          [false, false])).2.1)[1]? =
      [ConditionState.kUnknown, ConditionState.kUnknown][1]? :=
  ⟨by decide, by decide, by decide⟩

/-- Witness for C2 (amended) at the concrete sliced configuration: the
hypotheses hold and the characterization evaluates. -/
theorem C2_changed_iff_witness :
    (∀ j ∈ childIdxs cfgA cmapA 1, j < 1) ∧
    (((evaluatePass aruleX cruleX cfgA cmapA []
        (arenaS, [ConditionState.kUnknown, ConditionState.kUnknown],
          [false, false])).2.2)[1]? = some true ↔
      ((evaluatePass aruleX cruleX cfgA cmapA []
          (arenaS, [ConditionState.kUnknown, ConditionState.kUnknown],
            [false, false])).2.1)[1]?
          ≠ [ConditionState.kUnknown, ConditionState.kUnknown][1]? ∨
      (((arenaS[1]?).map ConditionTracker.mSliced).getD false = true ∧
       ∃ j ∈ childIdxs cfgA cmapA 1,
         ((evaluatePass aruleX cruleX cfgA cmapA []
             (arenaS, [ConditionState.kUnknown, ConditionState.kUnknown],
               [false, false])).2.2)[j]? = some true)) :=
  ⟨by decide,
   C2_changed_iff aruleX cruleX cfgA cmapA [] arenaS
     [ConditionState.kUnknown, ConditionState.kUnknown] [false, false] 1
     (by decide) (by decide) (by decide) (by decide)⟩

/-! Successful initialization: an acyclic, fully resolvable configuration
initializes completely, and the `mTrackerIndex` sets satisfy the union
equation.  The development follows the DFS structure of `initNode`. -/

/-- Number of marked slots of a marker array. -/
def countTrue : List Bool → Nat
  | [] => 0
  | b :: l => (if b then 1 else 0) + countTrue l

lemma countTrue_le_length : ∀ l : List Bool, countTrue l ≤ l.length := by
  intro l
  induction l with
  | nil => exact Nat.le_refl 0
  | cons b t ih =>
    cases b <;> simp [countTrue] <;> omega

lemma countTrue_set_true : ∀ (l : List Bool) (i : Nat), l[i]? = some false →
    countTrue (l.set i true) = countTrue l + 1 := by
  intro l
  induction l with
  | nil => intro i h; simp at h
  | cons b t ih =>
    intro i h
    cases i with
    | zero =>
      have hb : b = false := by simpa using h
      subst hb
      simp [countTrue]
      omega
    | succ i =>
      have h' : t[i]? = some false := by simpa using h
      simp only [List.set]
      simp [countTrue, ih i h']
      omega

lemma list_set_same {α : Type} : ∀ (l : List α) (i : Nat) (a : α),
    l[i]? = some a → l.set i a = l := by
  intro l
  induction l with
  | nil => intro i a h; simp at h
  | cons x t ih =>
    intro i a h
    cases i with
    | zero =>
      have : a = x := by simpa using h.symm
      subst this
      rfl
    | succ i =>
      have h' : t[i]? = some a := by simpa using h
      simp [List.set, ih i a h']

/-- The fields of a tracker that initialization never writes. -/
def frameFields (t : ConditionTracker) :
    String × Int × ConditionState × Bool :=
  (t.mName, t.mIndex, t.mNonSlicedConditionState, t.mSliced)

/-- Arena evolution during initialization: same length, and every entry keeps
its name, index, aggregate state and sliced flag. -/
def framePres (a b : List ConditionTracker) : Prop :=
  b.length = a.length ∧
    ∀ j : Nat, (b[j]?).map frameFields = (a[j]?).map frameFields

/-- Entries already initialized are not modified. -/
def frozenPres (a b : List ConditionTracker) : Prop :=
  ∀ (j : Nat) (t : ConditionTracker),
    a[j]? = some t → t.mInitialized = true → b[j]? = some t

/-- Invariant of the arena during initialization: every initialized entry
satisfies the union equation and has all its children initialized. -/
def arenaInv (config : List Condition) (cmap : List (String × Nat))
    (arena : List ConditionTracker) : Prop :=
  ∀ (j : Nat) (t : ConditionTracker), arena[j]? = some t → t.mInitialized = true →
    (t.mTrackerIndex = directs config j ∪ unionChildIdx arena (childIdxs config cmap j)) ∧
    ∀ c ∈ childIdxs config cmap j, ∃ tc, arena[c]? = some tc ∧ tc.mInitialized = true

lemma framePres_refl (a : List ConditionTracker) : framePres a a :=
  ⟨rfl, fun _ => rfl⟩

lemma framePres_trans {a b c : List ConditionTracker} (h1 : framePres a b)
    (h2 : framePres b c) : framePres a c :=
  ⟨h2.1.trans h1.1, fun j => (h2.2 j).trans (h1.2 j)⟩

lemma frozenPres_refl (a : List ConditionTracker) : frozenPres a a :=
  fun _ _ h _ => h

lemma frozenPres_trans {a b c : List ConditionTracker} (h1 : frozenPres a b)
    (h2 : frozenPres b c) : frozenPres a c :=
  fun j t h hi => h2 j t (h1 j t h hi) hi

lemma trackerSet_set_ne {l : List ConditionTracker} {i j : Nat}
    (h : j ≠ i) (x : ConditionTracker) : trackerSet (l.set i x) j = trackerSet l j := by
  unfold trackerSet
  rw [List.getElem?_set_ne (Ne.symm h)]

lemma unionChildIdx_congr {a b : List ConditionTracker} :
    ∀ (idxs : List Nat), (∀ j ∈ idxs, trackerSet a j = trackerSet b j) →
      unionChildIdx a idxs = unionChildIdx b idxs := by
  have haux : ∀ (idxs : List Nat) (s : Finset Nat),
      (∀ j ∈ idxs, trackerSet a j = trackerSet b j) →
      idxs.foldl (fun s j => s ∪ trackerSet a j) s =
        idxs.foldl (fun s j => s ∪ trackerSet b j) s := by
    intro idxs
    induction idxs with
    | nil => intro s _; rfl
    | cons x t ih =>
      intro s h
      simp only [List.foldl]
      rw [h x (List.mem_cons_self x t)]
      exact ih _ (fun j hj => h j (List.mem_cons_of_mem x hj))
  intro idxs h
  exact haux idxs ∅ h

/-- Entries of a fresh arena are uninitialized. -/
lemma buildArena_uninit (config : List Condition) :
    ∀ (j : Nat) (t : ConditionTracker), (buildArena config)[j]? = some t →
      t.mInitialized = false := by
  intro j t h
  unfold buildArena at h
  rw [List.getElem?_map] at h
  cases hr : (List.range config.length)[j]? with
  | none => rw [hr] at h; simp at h
  | some v =>
    rw [hr] at h
    simp only [Option.map_some'] at h
    have := h.symm
    injection this with he
    rw [he]
    rfl

lemma buildArena_length (config : List Condition) :
    (buildArena config).length = config.length := by
  unfold buildArena
  rw [List.length_map, List.length_range]

lemma ConditionTracker.ext' (a b : ConditionTracker)
    (h1 : a.mName = b.mName) (h2 : a.mIndex = b.mIndex)
    (h3 : a.mInitialized = b.mInitialized) (h4 : a.mTrackerIndex = b.mTrackerIndex)
    (h5 : a.mNonSlicedConditionState = b.mNonSlicedConditionState)
    (h6 : a.mSliced = b.mSliced) : a = b := by
  cases a
  cases b
  simp_all

/-- Specification of a successful recursive initialization call, available to
the dependency loop: on an unmarked, in-range node whose marked ancestors all
reach it, with enough fuel, the call succeeds, restores the marker array,
preserves frames and frozen entries, maintains the invariant, and leaves the
node initialized. -/
def stepSpec (config : List Condition) (cmap : List (String × Nat))
    (step : Nat → List ConditionTracker → List Bool →
      Bool × List ConditionTracker × List Bool) (fuel : Nat) : Prop :=
  ∀ (j : Nat) (ar : List ConditionTracker) (st : List Bool),
    ar.length = config.length → st.length = config.length →
    j < config.length →
    (∀ k : Nat, (st[k]?).getD false = true →
      Relation.ReflTransGen (edge config cmap) k j) →
    (st[j]?).getD false = false →
    config.length + 1 ≤ fuel + countTrue st →
    arenaInv config cmap ar →
    ∃ ar', step j ar st = (true, ar', st) ∧
      framePres ar ar' ∧ frozenPres ar ar' ∧ arenaInv config cmap ar' ∧
      ∃ t, ar'[j]? = some t ∧ t.mInitialized = true

/-- The dependency loop of a node succeeds when every named child resolves,
no child is marked (guaranteed by acyclicity), and the recursive call behaves
as `stepSpec` says; afterwards every resolved child is initialized. -/
lemma initChildren_success (config : List Condition) (cmap : List (String × Nat))
    (hnoc : ¬ hasCycle config cmap)
    (step : Nat → List ConditionTracker → List Bool →
      Bool × List ConditionTracker × List Bool)
    (fuel : Nat) (hstep : stepSpec config cmap step fuel)
    (i : Nat) (stack1 : List Bool)
    (hs1len : stack1.length = config.length)
    (hmarked : ∀ k : Nat, (stack1[k]?).getD false = true →
      k = i ∨ Relation.ReflTransGen (edge config cmap) k i)
    (hfuel : config.length + 1 ≤ fuel + countTrue stack1) :
    ∀ (names : List String),
      (∀ nm ∈ names, ∃ j, lookupIdx cmap nm = some j ∧ j < config.length ∧
        edge config cmap i j) →
      ∀ (arena : List ConditionTracker),
        arena.length = config.length → arenaInv config cmap arena →
        ∃ ar'', initChildren step cmap names arena stack1 = (true, ar'', stack1) ∧
          framePres arena ar'' ∧ frozenPres arena ar'' ∧ arenaInv config cmap ar'' ∧
          ∀ nm ∈ names, ∀ j : Nat, lookupIdx cmap nm = some j →
            ∃ tc, ar''[j]? = some tc ∧ tc.mInitialized = true := by
  intro names
  induction names with
  | nil =>
    intro _ arena halen hinv
    exact ⟨arena, rfl, framePres_refl arena, frozenPres_refl arena, hinv,
      fun nm hnm => absurd hnm (List.not_mem_nil nm)⟩
  | cons nm0 rest ih =>
    intro hchild arena halen hinv
    obtain ⟨j, hlook, hjlt, hedge⟩ := hchild nm0 (List.mem_cons_self nm0 rest)
    have hm : (stack1[j]?).getD false = false := by
      cases hmv : (stack1[j]?).getD false with
      | false => rfl
      | true =>
        exfalso
        rcases hmarked j hmv with rfl | hrt
        · exact hnoc ⟨j, Relation.TransGen.single hedge⟩
        · exact hnoc ⟨j, Relation.TransGen.tail' hrt hedge⟩
    have hmark2 : ∀ k : Nat, (stack1[k]?).getD false = true →
        Relation.ReflTransGen (edge config cmap) k j := by
      intro k hk
      rcases hmarked k hk with rfl | hrt
      · exact Relation.ReflTransGen.single hedge
      · exact hrt.trans (Relation.ReflTransGen.single hedge)
    obtain ⟨ar', heq, hfr, hfz, hinv', tj, htj, htjinit⟩ :=
      hstep j arena stack1 halen hs1len hjlt hmark2 hm hfuel hinv
    obtain ⟨ar'', heq2, hfr2, hfz2, hinv'', hrest⟩ :=
      ih (fun nm hnm => hchild nm (List.mem_cons_of_mem nm0 hnm)) ar'
        (hfr.1.trans halen) hinv'
    refine ⟨ar'', ?_, framePres_trans hfr hfr2, frozenPres_trans hfz hfz2, hinv'', ?_⟩
    · simp only [initChildren, hlook, hm, Bool.false_eq_true, if_false]
      rw [heq]
      exact heq2
    · intro nm hnm j' hlook'
      rcases List.mem_cons.mp hnm with rfl | hmem
      · rw [hlook] at hlook'
        obtain rfl : j = j' := Option.some.inj hlook'
        exact ⟨tj, hfz2 j tj htj htjinit, htjinit⟩
      · exact hrest nm hmem j' hlook'

/-- DFS initialization of a single node succeeds on acyclic, fully
resolvable configurations, at every fuel large enough: `stepSpec` holds of
`initNode` itself. -/
lemma initNode_success (config : List Condition) (cmap : List (String × Nat))
    (hnoc : ¬ hasCycle config cmap) (hres : resolvable config cmap) :
    ∀ fuel : Nat, stepSpec config cmap (initNode config cmap fuel) fuel := by
  intro fuel
  induction fuel with
  | zero =>
    intro j ar st _ hslen _ _ _ hfuel _
    exfalso
    have h1 := countTrue_le_length st
    omega
  | succ fuel ih =>
    intro i arena stack halen hslen hi hmarked hunmarked hfuel hinv
    have hc : config[i]? = some config[i] := List.getElem?_eq_getElem hi
    have hstacki : stack[i]? = some false := by
      have hlt : i < stack.length := by omega
      rw [List.getElem?_eq_getElem hlt]
      rw [List.getElem?_eq_getElem hlt] at hunmarked
      simp only [Option.getD_some] at hunmarked
      rw [hunmarked]
    have hs1len : (stack.set i true).length = config.length := by
      rw [List.length_set]
      exact hslen
    have hmarked1 : ∀ k : Nat, ((stack.set i true)[k]?).getD false = true →
        k = i ∨ Relation.ReflTransGen (edge config cmap) k i := by
      intro k hk
      by_cases hki : k = i
      · exact Or.inl hki
      · right
        rw [List.getElem?_set_ne (fun h => hki h.symm)] at hk
        exact hmarked k hk
    have hfuel1 : config.length + 1 ≤ fuel + countTrue (stack.set i true) := by
      rw [countTrue_set_true stack i hstacki]
      omega
    have hchild : ∀ nm ∈ childNames config[i],
        ∃ j, lookupIdx cmap nm = some j ∧ j < config.length ∧ edge config cmap i j := by
      intro nm hnm
      obtain ⟨j, hlook, hjlt⟩ := hres i config[i] hc nm hnm
      refine ⟨j, hlook, hjlt, ?_⟩
      show j ∈ childIdxs config cmap i
      unfold childIdxs
      rw [hc]
      exact List.mem_filterMap.mpr ⟨nm, hnm, hlook⟩
    obtain ⟨ar'', heqloop, hfr, hfz, hinv'', hchildinit⟩ :=
      initChildren_success config cmap hnoc (initNode config cmap fuel) fuel ih i
        (stack.set i true) hs1len hmarked1 hfuel1 (childNames config[i]) hchild
        arena halen hinv
    have har''len : ar''.length = config.length := hfr.1.trans halen
    have hilt : i < ar''.length := by omega
    have ht0 : ar''[i]? = some ar''[i] := List.getElem?_eq_getElem hilt
    have hchi : ∀ c ∈ childIdxs config cmap i,
        ∃ tc, ar''[c]? = some tc ∧ tc.mInitialized = true := by
      intro c hcmem
      have hmem' : c ∈ (childNames config[i]).filterMap (lookupIdx cmap) := by
        have h' := hcmem
        unfold childIdxs at h'
        rw [hc] at h'
        exact h'
      obtain ⟨nm, hnm, hlook⟩ := List.mem_filterMap.mp hmem'
      exact hchildinit nm hnm c hlook
    have hnotself : i ∉ childIdxs config cmap i := by
      intro hmem
      exact hnoc ⟨i, Relation.TransGen.single hmem⟩
    have hstackeq : ((stack.set i true).set i false) = stack := by
      rw [List.set_set]
      exact list_set_same stack i false hstacki
    have hrun : initNode config cmap (fuel + 1) i arena stack =
        (true,
         ar''.set i
           { ar''[i] with
             mInitialized := true
             mTrackerIndex :=
               directs config i ∪ unionChildIdx ar'' (childIdxs config cmap i) },
         stack) := by
      simp only [initNode, hc, heqloop]
      rw [ht0]
      simp only [Option.getD_some]
      rw [hstackeq]
    cases hAinit : (ar''[i]).mInitialized with
    | true =>
      obtain ⟨hEq, _⟩ := hinv'' i ar''[i] ht0 hAinit
      have hTeq : ({ ar''[i] with
          mInitialized := true
          mTrackerIndex :=
            directs config i ∪ unionChildIdx ar'' (childIdxs config cmap i) } :
          ConditionTracker) = ar''[i] :=
        ConditionTracker.ext' _ _ rfl rfl (by rw [hAinit]) (by rw [hEq]) rfl rfl
      refine ⟨ar'', ?_, hfr, hfz, hinv'', ⟨ar''[i], ht0, hAinit⟩⟩
      rw [hrun, hTeq, list_set_same ar'' i ar''[i] ht0]
    | false =>
      set vIdx := directs config i ∪ unionChildIdx ar'' (childIdxs config cmap i)
        with hvIdx
      set newT : ConditionTracker :=
        { ar''[i] with mInitialized := true, mTrackerIndex := vIdx } with hnewT
      set arF := ar''.set i newT with harF
      have harFi : arF[i]? = some newT := by
        rw [harF]
        exact List.getElem?_set_self hilt
      have harFne : ∀ j : Nat, j ≠ i → arF[j]? = ar''[j]? := by
        intro j hj
        rw [harF]
        exact List.getElem?_set_ne (fun h => hj h.symm)
      have hnochildi : ∀ (j' : Nat) (tj' : ConditionTracker),
          ar''[j']? = some tj' → tj'.mInitialized = true →
          i ∉ childIdxs config cmap j' := by
        intro j' tj' hj' hinitj' hmem
        obtain ⟨tc, htc, hinitc⟩ := (hinv'' j' tj' hj' hinitj').2 i hmem
        rw [ht0] at htc
        obtain rfl := Option.some.inj htc
        rw [hAinit] at hinitc
        cases hinitc
      have htsF : ∀ (idxs : List Nat), i ∉ idxs →
          unionChildIdx arF idxs = unionChildIdx ar'' idxs := by
        intro idxs hnot
        apply unionChildIdx_congr
        intro c hcmem
        have hci : c ≠ i := fun h => hnot (h ▸ hcmem)
        rw [harF]
        exact trackerSet_set_ne hci newT
      have hinvF : arenaInv config cmap arF := by
        intro j' tj' hj' hinitj'
        by_cases hji : j' = i
        · subst hji
          rw [harFi] at hj'
          obtain rfl := Option.some.inj hj'
          constructor
          · rw [htsF (childIdxs config cmap j') hnotself]
          · intro c hcmem
            obtain ⟨tc, htc, hinitc⟩ := hchi c hcmem
            have hci : c ≠ j' := by
              intro h
              subst h
              rw [ht0] at htc
              obtain rfl := Option.some.inj htc
              rw [hAinit] at hinitc
              cases hinitc
            exact ⟨tc, (harFne c hci).trans htc, hinitc⟩
        · have hj'' : ar''[j']? = some tj' := by
            rw [← harFne j' hji]
            exact hj'
          obtain ⟨hEq, hch⟩ := hinv'' j' tj' hj'' hinitj'
          have hnoti : i ∉ childIdxs config cmap j' := hnochildi j' tj' hj'' hinitj'
          constructor
          · rw [htsF (childIdxs config cmap j') hnoti]
            exact hEq
          · intro c hcmem
            obtain ⟨tc, htc, hinitc⟩ := hch c hcmem
            have hci : c ≠ i := fun h => hnoti (h ▸ hcmem)
            exact ⟨tc, (harFne c hci).trans htc, hinitc⟩
      have hfrF : framePres arena arF := by
        refine framePres_trans hfr ⟨?_, ?_⟩
        · rw [harF, List.length_set]
        · intro j
          by_cases hji : j = i
          · subst hji
            rw [harFi, ht0]
            rfl
          · rw [harFne j hji]
      have hfzF : frozenPres arena arF := by
        intro j t hj hinitt
        have hj'' : ar''[j]? = some t := hfz j t hj hinitt
        by_cases hji : j = i
        · subst hji
          rw [ht0] at hj''
          obtain rfl := Option.some.inj hj''
          rw [hAinit] at hinitt
          cases hinitt
        · rw [harFne j hji]
          exact hj''
      refine ⟨arF, ?_, hfrF, hfzF, hinvF, ⟨newT, harFi, rfl⟩⟩
      rw [hrun]

/-- The batch driver succeeds on acyclic, resolvable configurations when
started with an all-clear marker array, and initializes every listed node. -/
lemma initBatch_success (config : List Condition) (cmap : List (String × Nat))
    (hnoc : ¬ hasCycle config cmap) (hres : resolvable config cmap) :
    ∀ (idxs : List Nat) (arena : List ConditionTracker) (stack : List Bool),
      (∀ i ∈ idxs, i < config.length) →
      arena.length = config.length → stack.length = config.length →
      (∀ k : Nat, (stack[k]?).getD false = false) →
      arenaInv config cmap arena →
      ∃ ar', initBatch config cmap idxs arena stack = (true, ar', stack) ∧
        framePres arena ar' ∧ frozenPres arena ar' ∧ arenaInv config cmap ar' ∧
        ∀ i ∈ idxs, ∃ t, ar'[i]? = some t ∧ t.mInitialized = true := by
  intro idxs
  induction idxs with
  | nil =>
    intro arena stack _ _ _ _ hinv
    exact ⟨arena, rfl, framePres_refl arena, frozenPres_refl arena, hinv,
      fun i hi => absurd hi (List.not_mem_nil i)⟩
  | cons i0 rest ih =>
    intro arena stack hlt halen hslen hall hinv
    obtain ⟨ar', heq, hfr, hfz, hinv', t, hti, htinit⟩ :=
      initNode_success config cmap hnoc hres (config.length + 1) i0 arena stack
        halen hslen (hlt i0 (List.mem_cons_self i0 rest))
        (fun k hk => absurd hk (by simp [hall k]))
        (hall i0) (by omega) hinv
    obtain ⟨ar'', heq2, hfr2, hfz2, hinv'', hrest⟩ :=
      ih ar' stack (fun i hi => hlt i (List.mem_cons_of_mem i0 hi))
        (hfr.1.trans halen) hslen hall hinv'
    refine ⟨ar'', ?_, framePres_trans hfr hfr2, frozenPres_trans hfz hfz2, hinv'', ?_⟩
    · simp only [initBatch]
      rw [heq]
      exact heq2
    · intro i hi
      rcases List.mem_cons.mp hi with rfl | hmem
      · exact ⟨t, hfz2 i t hti htinit, htinit⟩
      · exact hrest i hmem

/-- C3: on every acyclic, fully name-resolvable configuration, `init`
succeeds and afterwards every tracker is initialized, with
`getLogTrackerIndex` equal to the union of the node's direct matcher
dependencies and the `getLogTrackerIndex` sets of its resolved children. -/
theorem C3_init_success_union :
    ∀ (config : List Condition) (cmap : List (String × Nat)),
      ¬ hasCycle config cmap → resolvable config cmap →
      (initConditions config cmap).1 = true ∧
      ∀ (i : Nat) (t : ConditionTracker),
        ((initConditions config cmap).2.1)[i]? = some t →
        t.mInitialized = true ∧
        t.getLogTrackerIndex =
          directs config i ∪
            unionChildIdx ((initConditions config cmap).2.1)
              (childIdxs config cmap i) := by
  intro config cmap hnoc hres
  have hreplen : (List.replicate config.length false).length = config.length :=
    List.length_replicate config.length false
  have hallf : ∀ k : Nat,
      ((List.replicate config.length false)[k]?).getD false = false := by
    intro k
    simp only [List.getElem?_replicate]
    split <;> rfl
  have hinv0 : arenaInv config cmap (buildArena config) := by
    intro j t hj hinit
    have hf := buildArena_uninit config j t hj
    rw [hf] at hinit
    cases hinit
  obtain ⟨ar', heq, hfr, hfz, hinv', hall⟩ := initBatch_success config cmap hnoc hres
    (List.range config.length) (buildArena config) (List.replicate config.length false)
    (fun i hi => List.mem_range.mp hi) (buildArena_length config) hreplen hallf hinv0
  unfold initConditions
  rw [heq]
  refine ⟨rfl, ?_⟩
  intro i t hti
  have hilt : i < ar'.length := (List.getElem?_eq_some.mp hti).1
  have hlen : ar'.length = config.length := hfr.1.trans (buildArena_length config)
  obtain ⟨t', ht', hinit'⟩ := hall i (List.mem_range.mpr (by omega))
  rw [hti] at ht'
  obtain rfl := Option.some.inj ht'
  obtain ⟨hEqn, _⟩ := hinv' i t hti hinit'
  exact ⟨hinit', hEqn⟩

/-- One-node acyclic configuration used as witness for C3. -/
def cfgW : List Condition := [⟨"w", CondKind.atomic [2, 5]⟩]

/-- Name→index map for `cfgW`. -/
def cmapW : List (String × Nat) := [("w", 0)]

lemma cfgW_no_edge : ∀ a b : Nat, ¬ edge cfgW cmapW a b := by
  intro a b h
  have h' : b ∈ childIdxs cfgW cmapW a := h
  match a with
  | 0 => simp [childIdxs, cfgW, childNames] at h'
  | Nat.succ n => simp [childIdxs, cfgW] at h'

lemma noCycle_of_no_edge {config : List Condition} {cmap : List (String × Nat)}
    (h : ∀ a b : Nat, ¬ edge config cmap a b) : ¬ hasCycle config cmap := by
  rintro ⟨j, hj⟩
  obtain ⟨b, hjb, _⟩ := Relation.TransGen.head'_iff.mp hj
  exact h j b hjb

lemma cfgW_resolvable : resolvable cfgW cmapW := by
  intro i c hc nm hnm
  match i with
  | 0 =>
    have hce : c = ⟨"w", CondKind.atomic [2, 5]⟩ := by
      have := hc
      simp [cfgW] at this
      exact this.symm
    subst hce
    simp [childNames] at hnm
  | Nat.succ n => simp [cfgW] at hc

/-- Witness for C3 at the concrete acyclic configuration `cfgW`. -/
theorem C3_init_success_union_witness :
    (¬ hasCycle cfgW cmapW) ∧ resolvable cfgW cmapW ∧
    (initConditions cfgW cmapW).1 = true ∧
    (∀ (i : Nat) (t : ConditionTracker),
      ((initConditions cfgW cmapW).2.1)[i]? = some t →
      t.mInitialized = true ∧
      t.getLogTrackerIndex =
        directs cfgW i ∪
          unionChildIdx ((initConditions cfgW cmapW).2.1) (childIdxs cfgW cmapW i)) := by
  have hnoc : ¬ hasCycle cfgW cmapW := noCycle_of_no_edge cfgW_no_edge
  have hres : resolvable cfgW cmapW := cfgW_resolvable
  have h := C3_init_success_union cfgW cmapW hnoc hres
  exact ⟨hnoc, hres, h.1, h.2⟩

/-! Determinism of replay and the dimensioned query path. -/

/-- C6: evaluation is deterministic: two replays of identical matcher-verdict
sequences from a freshly loaded arena produce identical sequences of
state-cache and change-flag snapshots. -/
theorem C6_eval_deterministic :
    ∀ (arule : Nat → List MatchingState → ConditionState → ConditionState)
      (crule : Nat → List ConditionState → ConditionState)
      (config : List Condition) (cmap : List (String × Nat))
      (arena : List ConditionTracker) (es1 es2 : List (List MatchingState)),
      loadConfig config cmap = some arena →
      es1 = es2 →
      evalRun arule crule config cmap es1
          (arena, List.replicate config.length ConditionState.kUnknown) =
        evalRun arule crule config cmap es2
          (arena, List.replicate config.length ConditionState.kUnknown) := by
  intro arule crule config cmap arena es1 es2 _ h
  rw [h]

/-- Witness for C6: a loaded one-node configuration replayed on the same
one-event sequence. -/
theorem C6_eval_deterministic_witness :
    loadConfig cfgW cmapW = some ((initConditions cfgW cmapW).2.1) ∧
    evalRun aruleX cruleX cfgW cmapW [[MatchingState.kMatched]]
        ((initConditions cfgW cmapW).2.1,
         List.replicate cfgW.length ConditionState.kUnknown) =
      evalRun aruleX cruleX cfgW cmapW [[MatchingState.kMatched]]
        ((initConditions cfgW cmapW).2.1,
         List.replicate cfgW.length ConditionState.kUnknown) :=
  ⟨by decide,
   C6_eval_deterministic aruleX cruleX cfgW cmapW ((initConditions cfgW cmapW).2.1)
     [[MatchingState.kMatched]] [[MatchingState.kMatched]] (by decide) rfl⟩

/-- C5: the dimensioned query is read-only on the trackers — every tracker,
hence every `isConditionMet()` observation, is exactly as before the call —
and two calls with the same parameters return the same value at the queried
slot, whatever cache the first call left behind. -/
theorem C5_dim_query_readonly :
    ∀ (adRule : Nat → DimParams → ConditionState)
      (cdRule : Nat → List ConditionState → ConditionState)
      (config : List Condition) (cmap : List (String × Nat)) (params : DimParams)
      (i : Nat) (arena : List ConditionTracker) (cache cache' : List ConditionState),
      i < cache.length → i < cache'.length →
      ((isConditionMetDim adRule cdRule config cmap params i arena cache).1 = arena ∧
       (∀ (j : Nat) (t : ConditionTracker),
         ((isConditionMetDim adRule cdRule config cmap params i arena cache).1)[j]?
             = some t →
           arena[j]? = some t ∧ t.isConditionMet = t.mNonSlicedConditionState) ∧
       ((isConditionMetDim adRule cdRule config cmap params i arena cache).2)[i]? =
         ((isConditionMetDim adRule cdRule config cmap params i arena cache').2)[i]?) := by
  intro adRule cdRule config cmap params i arena cache cache' hi hi'
  refine ⟨rfl, fun j t h => ⟨h, rfl⟩, ?_⟩
  show (cache.set i (dimValue adRule cdRule config cmap params (config.length + 1) i))[i]? =
    (cache'.set i (dimValue adRule cdRule config cmap params (config.length + 1) i))[i]?
  rw [List.getElem?_set_self hi, List.getElem?_set_self hi']

/-- Atomic dimensioned rule used in the concrete query scenario. -/
def adRuleX : Nat → DimParams → ConditionState := fun _ _ => ConditionState.kTrue

/-- Witness for C5 at a concrete one-node configuration and dimension key. -/
theorem C5_dim_query_readonly_witness :
    (0 < ([ConditionState.kUnknown] : List ConditionState).length) ∧
    (0 < ([ConditionState.kFalse] : List ConditionState).length) ∧
    ((isConditionMetDim adRuleX cruleX cfgW cmapW [("w", "uid7")] 0
        ((initConditions cfgW cmapW).2.1) [ConditionState.kUnknown]).1 =
          (initConditions cfgW cmapW).2.1 ∧
     (∀ (j : Nat) (t : ConditionTracker),
       ((isConditionMetDim adRuleX cruleX cfgW cmapW [("w", "uid7")] 0
           ((initConditions cfgW cmapW).2.1) [ConditionState.kUnknown]).1)[j]?
           = some t →
         ((initConditions cfgW cmapW).2.1)[j]? = some t ∧
           t.isConditionMet = t.mNonSlicedConditionState) ∧
     ((isConditionMetDim adRuleX cruleX cfgW cmapW [("w", "uid7")] 0
         ((initConditions cfgW cmapW).2.1) [ConditionState.kUnknown]).2)[0]? =
       ((isConditionMetDim adRuleX cruleX cfgW cmapW [("w", "uid7")] 0
           ((initConditions cfgW cmapW).2.1) [ConditionState.kFalse]).2)[0]?) :=
  ⟨by decide, by decide,
   C5_dim_query_readonly adRuleX cruleX cfgW cmapW [("w", "uid7")] 0
     ((initConditions cfgW cmapW).2.1) [ConditionState.kUnknown]
     [ConditionState.kFalse] (by decide) (by decide)⟩

/-! Name and index immutability. -/

/-- The two construction-time identity fields of a tracker. -/
def nameIdx (t : ConditionTracker) : String × Int := (t.mName, t.mIndex)

lemma initChildren_nameIdx
    (step : Nat → List ConditionTracker → List Bool →
      Bool × List ConditionTracker × List Bool)
    (hstep : ∀ (j : Nat) (ar : List ConditionTracker) (st : List Bool) (k : Nat),
      (((step j ar st).2.1)[k]?).map nameIdx = (ar[k]?).map nameIdx)
    (cmap : List (String × Nat)) :
    ∀ (names : List String) (arena : List ConditionTracker) (stack : List Bool) (k : Nat),
      (((initChildren step cmap names arena stack).2.1)[k]?).map nameIdx =
        (arena[k]?).map nameIdx := by
  intro names
  induction names with
  | nil => intro arena stack k; rfl
  | cons nm rest ih =>
    intro arena stack k
    simp only [initChildren]
    cases hl : lookupIdx cmap nm with
    | none => rfl
    | some j =>
      cases hm : (stack[j]?).getD false with
      | true => simp [hm]
      | false =>
        simp only [hm, Bool.false_eq_true, if_false]
        rcases hs : step j arena stack with ⟨b, ar, st⟩
        have h := hstep j arena stack k
        rw [hs] at h
        cases b with
        | false => exact h
        | true =>
          simp only at h ⊢
          exact (ih ar st k).trans h

lemma initNode_nameIdx (config : List Condition) (cmap : List (String × Nat)) :
    ∀ (fuel i : Nat) (arena : List ConditionTracker) (stack : List Bool) (k : Nat),
      (((initNode config cmap fuel i arena stack).2.1)[k]?).map nameIdx =
        (arena[k]?).map nameIdx := by
  intro fuel
  induction fuel with
  | zero => intro i arena stack k; rfl
  | succ fuel ih =>
    intro i arena stack k
    simp only [initNode]
    split
    · rfl
    · rename_i c hc
      split
      · rename_i ar st hr
        have h := initChildren_nameIdx (initNode config cmap fuel)
          (fun j a s k' => ih j a s k') cmap (childNames c) arena (stack.set i true) k
        rw [hr] at h
        exact h
      · rename_i ar st hr
        have h := initChildren_nameIdx (initNode config cmap fuel)
          (fun j a s k' => ih j a s k') cmap (childNames c) arena (stack.set i true) k
        rw [hr] at h
        simp only at h ⊢
        by_cases hki : k = i
        · subst hki
          by_cases hlt : k < ar.length
          · rw [List.getElem?_set_self hlt]
            rw [List.getElem?_eq_getElem hlt] at h ⊢
            simp only [Option.getD_some, Option.map_some'] at h ⊢
            exact h
          · rw [List.set_eq_of_length_le (Nat.le_of_not_lt hlt)]
            exact h
        · rw [List.getElem?_set_ne (fun he => hki he.symm)]
          exact h

lemma initBatch_nameIdx (config : List Condition) (cmap : List (String × Nat)) :
    ∀ (idxs : List Nat) (arena : List ConditionTracker) (stack : List Bool) (k : Nat),
      (((initBatch config cmap idxs arena stack).2.1)[k]?).map nameIdx =
        (arena[k]?).map nameIdx := by
  intro idxs
  induction idxs with
  | nil => intro arena stack k; rfl
  | cons i0 rest ih =>
    intro arena stack k
    simp only [initBatch]
    rcases hs : initNode config cmap (config.length + 1) i0 arena stack with ⟨b, ar, st⟩
    have h := initNode_nameIdx config cmap (config.length + 1) i0 arena stack k
    rw [hs] at h
    cases b with
    | false => exact h
    | true =>
      simp only at h ⊢
      exact (ih ar st k).trans h

lemma evalStep_nameIdx (arule : Nat → List MatchingState → ConditionState → ConditionState)
    (crule : Nat → List ConditionState → ConditionState)
    (config : List Condition) (cmap : List (String × Nat))
    (verdicts : List MatchingState) (i : Nat) (st : EvalState) (k : Nat) :
    (((evalStep arule crule config cmap verdicts i st).1)[k]?).map nameIdx =
      ((st.1)[k]?).map nameIdx := by
  rcases st with ⟨arena, cache, changed⟩
  cases hc : config[i]? with
  | none => simp [evalStep, hc]
  | some c =>
    rw [evalStep_eq arule crule config cmap verdicts hc]
    by_cases hki : k = i
    · subst hki
      by_cases hlt : k < arena.length
      · rw [List.getElem?_set_self hlt, List.getElem?_eq_getElem hlt]
        simp [nameIdx]
      · rw [List.set_eq_of_length_le (Nat.le_of_not_lt hlt)]
    · rw [List.getElem?_set_ne (fun he => hki he.symm)]

lemma evalLoopN_nameIdx (arule : Nat → List MatchingState → ConditionState → ConditionState)
    (crule : Nat → List ConditionState → ConditionState)
    (config : List Condition) (cmap : List (String × Nat))
    (verdicts : List MatchingState) :
    ∀ (k s : Nat) (st : EvalState) (j : Nat),
      (((evalLoopN arule crule config cmap verdicts s k st).1)[j]?).map nameIdx =
        ((st.1)[j]?).map nameIdx := by
  intro k
  induction k with
  | zero => intro s st j; rfl
  | succ k ih =>
    intro s st j
    simp only [evalLoopN]
    exact (ih (s + 1) (evalStep arule crule config cmap verdicts s st) j).trans
      (evalStep_nameIdx arule crule config cmap verdicts s st j)

/-- C9: no operation of the tracker interface changes `mName` or `mIndex`:
not `setSliced`, not the accessors, not initialization (relative to the
constructed arena), not an evaluation pass, and not the dimensioned query. -/
theorem C9_name_index_immutable :
    ∀ (t : ConditionTracker) (b : Bool),
      ((t.setSliced b).mName = t.mName ∧ (t.setSliced b).mIndex = t.mIndex) ∧
      ((t.isConditionMetM).2.mName = t.mName ∧ (t.isConditionMetM).2.mIndex = t.mIndex) ∧
      ((t.getLogTrackerIndexM).2.mName = t.mName ∧
        (t.getLogTrackerIndexM).2.mIndex = t.mIndex) ∧
      (∀ (config : List Condition) (cmap : List (String × Nat)) (k : Nat),
        (((initConditions config cmap).2.1)[k]?).map nameIdx =
          ((buildArena config)[k]?).map nameIdx) ∧
      (∀ (arule : Nat → List MatchingState → ConditionState → ConditionState)
         (crule : Nat → List ConditionState → ConditionState)
         (config : List Condition) (cmap : List (String × Nat))
         (verdicts : List MatchingState) (st : EvalState) (k : Nat),
        (((evaluatePass arule crule config cmap verdicts st).1)[k]?).map nameIdx =
          ((st.1)[k]?).map nameIdx) ∧
      (∀ (adRule : Nat → DimParams → ConditionState)
         (cdRule : Nat → List ConditionState → ConditionState)
         (config : List Condition) (cmap : List (String × Nat)) (params : DimParams)
         (i : Nat) (arena : List ConditionTracker) (cache : List ConditionState),
        (isConditionMetDim adRule cdRule config cmap params i arena cache).1 = arena) := by
  intro t b
  refine ⟨⟨rfl, rfl⟩, ⟨rfl, rfl⟩, ⟨rfl, rfl⟩, ?_, ?_, ?_⟩
  · intro config cmap k
    exact initBatch_nameIdx config cmap (List.range config.length)
      (buildArena config) (List.replicate config.length false) k
  · intro arule crule config cmap verdicts st k
    exact evalLoopN_nameIdx arule crule config cmap verdicts config.length 0 st k
  · intro adRule cdRule config cmap params i arena cache
    rfl

end Statsd
